import Mathlib

/-!
# Verification of the `clean_mmt` repository

Shallow embedding of the numeric core of the repository (a cross-modal
video-text retrieval model) and proofs about it:

* `src/model/loss.py`   — `MaxMarginRankingLoss`, `InfoNceLoss`, `BarlowTwinsLoss`
* `src/server.py`       — `cpt_mean_maximum_similarity`, `cpt_mean_maximum_similarity2`
* `src/model/MMTwins.py`— `sharded_cross_view_inner_product` and the dataflow of
  `MMTwins.forward` (token assembly, weighting, projection heads, outputs)

Tensors over real entries are embedded as functions `Fin n → … → ℝ`; PyTorch's
1-D views are embedded as Lean `List ℝ` values and `view`/reshape as row-major
index arithmetic.  Floating point is idealised as exact real arithmetic; the
`eps` guard of `F.normalize` (a float-stability device, default `1e-12`) is
dropped, i.e. `F.normalize` is embedded as division by the exact L2 norm, which
agrees with the PyTorch semantics at the zero vector (both produce the zero
vector) and on all vectors of norm at least `eps`.
-/

namespace CleanMMT

/-- Row-major flattening of a matrix, as produced by `tensor.view(-1, 1)`
(the trailing singleton dimension is dropped in the embedding). -/
def flat2 {α : Type} {n m : ℕ} (x : Fin n → Fin m → α) : List α :=
  (List.finRange n).flatMap fun i => (List.finRange m).map fun j => x i j

/-- `tensor.transpose(0, 1)` on a matrix. -/
def transposeM {α : Type} {n m : ℕ} (x : Fin n → Fin m → α) : Fin m → Fin n → α :=
  fun j i => x i j

/-- Embedding of `MaxMarginRankingLoss.forward` (src/model/loss.py lines 38-65)
with `fix_norm=True`, the configuration the claims are about.  Each PyTorch
statement is mirrored by one `let`:
`x1` is the diagonal expanded to an `n×n` matrix and flattened, concatenated
with itself; `x2` is `x` flattened concatenated with `x` transposed flattened;
`keep = ones - eye` selects (via `th.nonzero`/`index_select`) the positions
with nonzero `keep` entry; the result is the mean of
`relu(margin - (x1_ - x2_))` over the selected positions. -/
noncomputable def MaxMarginRankingLoss_forward (margin : ℝ) {n : ℕ}
    (x : Fin n → Fin n → ℝ) : ℝ :=
  let x1 : List ℝ := flat2 (fun i (_ : Fin n) => x i i)
  let x1c : List ℝ := x1 ++ x1
  let x2 : List ℝ := flat2 x
  let x3 : List ℝ := flat2 (transposeM x)
  let x2c : List ℝ := x2 ++ x3
  let keep : Fin n → Fin n → ℝ := fun i j => 1 - (if i = j then (1 : ℝ) else 0)
  let keep1 : List ℝ := flat2 keep
  let keep2 : List ℝ := flat2 (transposeM keep)
  let keepc : List ℝ := keep1 ++ keep2
  let selected : List (ℝ × ℝ) :=
    ((keepc.zip (x1c.zip x2c)).filter (fun p => p.1 ≠ 0)).map Prod.snd
  let max_margin : List ℝ := selected.map (fun p => max (margin - (p.1 - p.2)) 0)
  max_margin.sum / max_margin.length

/-! ### List-level helper lemmas used to reason about the flattened tensors -/

theorem length_flat2 {α : Type} {n m : ℕ} (x : Fin n → Fin m → α) :
    (flat2 x).length = n * m := by
  simp only [flat2, List.length_flatMap, Function.comp_def, List.length_map,
    List.length_finRange, List.map_const', List.sum_replicate, smul_eq_mul, mul_one]

theorem zip_flatMap_map {ι κ α β : Type} (l : List ι) (r : List κ)
    (f : ι → κ → α) (g : ι → κ → β) :
    (l.flatMap fun i => r.map (f i)).zip (l.flatMap fun i => r.map (g i))
      = l.flatMap fun i => r.map fun j => (f i j, g i j) := by
  induction l with
  | nil => simp
  | cons hd tl ih =>
      simp only [List.flatMap_cons]
      rw [List.zip_append (by simp), List.zip_map' (f hd) (g hd) r, ih]

theorem zip_flat2 {α β : Type} {n m : ℕ} (A : Fin n → Fin m → α) (B : Fin n → Fin m → β) :
    (flat2 A).zip (flat2 B) = flat2 (fun i j => (A i j, B i j)) :=
  zip_flatMap_map _ _ _ _

theorem filter_flatMap {ι α : Type} (l : List ι) (f : ι → List α) (p : α → Bool) :
    (l.flatMap f).filter p = l.flatMap fun i => (f i).filter p := by
  induction l with
  | nil => simp
  | cons hd tl ih => simp only [List.flatMap_cons, List.filter_append, ih]

theorem sum_flatMap {ι M : Type} [AddCommMonoid M] (l : List ι) (f : ι → List M) :
    (l.flatMap f).sum = (l.map fun i => (f i).sum).sum := by
  rw [List.flatMap, List.sum_flatten, List.map_map, Function.comp_def]

/-- Sum of a map over a filtered list, as a sum of `if`-guarded terms. -/
theorem sum_map_filter {α M : Type} [AddCommMonoid M] (l : List α) (p : α → Bool)
    (f : α → M) :
    ((l.filter p).map f).sum = (l.map fun a => if p a then f a else 0).sum := by
  induction l with
  | nil => simp
  | cons hd tl ih =>
      rw [List.filter_cons]
      by_cases h : p hd
      · simp only [if_pos h, List.map_cons, List.sum_cons, ih]
      · simp only [if_neg h, List.map_cons, List.sum_cons, ih]
        simp [h]

/-- Length of a filtered list, as a sum of `if`-guarded ones. -/
theorem length_filter_eq_sum {α : Type} (l : List α) (p : α → Bool) :
    (l.filter p).length = (l.map fun a => if p a then (1 : ℕ) else 0).sum := by
  have h := sum_map_filter l p (fun _ => (1 : ℕ))
  simpa using h

theorem sum_map_finRange {M : Type} [AddCommMonoid M] {n : ℕ} (f : Fin n → M) :
    ((List.finRange n).map f).sum = ∑ i : Fin n, f i :=
  (Fin.sum_univ_def f).symm

/-! ### Characterization of `MaxMarginRankingLoss.forward` (shared by several claims) -/

/-- The sum of all off-diagonal hinge terms of the max-margin ranking loss. -/
noncomputable def maxMarginSum (margin : ℝ) {n : ℕ} (x : Fin n → Fin n → ℝ) : ℝ :=
  ∑ i : Fin n, ∑ j : Fin n,
    if i = j then 0
    else max (margin - (x i i - x i j)) 0 + max (margin - (x i i - x j i)) 0

theorem flat2_filter_map_sum {α M' : Type} [AddCommMonoid M'] {n m : ℕ}
    (M : Fin n → Fin m → α) (p : α → Bool) (F : α → M') :
    (((flat2 M).filter p).map F).sum
      = ∑ i : Fin n, ∑ j : Fin m, if p (M i j) then F (M i j) else 0 := by
  rw [flat2, filter_flatMap, List.map_flatMap, sum_flatMap, sum_map_finRange]
  refine Finset.sum_congr rfl fun i _ => ?_
  rw [List.filter_map, List.map_map, sum_map_filter, sum_map_finRange]
  rfl

theorem length_eq_sum_ones {α : Type} (l : List α) :
    l.length = (l.map fun _ => (1 : ℕ)).sum := by
  induction l with
  | nil => rfl
  | cons hd tl ih => rw [List.length_cons, ih, List.map_cons, List.sum_cons, Nat.add_comm]

theorem flat2_filter_length {α : Type} {n m : ℕ}
    (M : Fin n → Fin m → α) (p : α → Bool) :
    ((flat2 M).filter p).length
      = ∑ i : Fin n, ∑ j : Fin m, if p (M i j) then (1 : ℕ) else 0 := by
  rw [length_eq_sum_ones ((flat2 M).filter p), flat2_filter_map_sum M p (fun _ => (1 : ℕ))]

theorem row_count {n : ℕ} (i : Fin n) :
    (∑ j : Fin n, if i = j then (0 : ℕ) else 1) = n - 1 := by
  rw [Finset.sum_ite]
  simp only [Finset.sum_const_zero, Finset.sum_const, smul_eq_mul, mul_one, zero_add]
  have h : (Finset.univ.filter fun j : Fin n => ¬ i = j) = Finset.univ.erase i := by
    ext j; simp [eq_comm]
  rw [h, Finset.card_erase_of_mem (Finset.mem_univ i), Finset.card_univ, Fintype.card_fin]

theorem row_count' {n : ℕ} (i : Fin n) :
    (∑ j : Fin n, if j = i then (0 : ℕ) else 1) = n - 1 := by
  have h : ∀ j : Fin n, (if j = i then (0 : ℕ) else 1) = if i = j then 0 else 1 := by
    intro j
    by_cases hji : j = i
    · simp [hji]
    · have hij : ¬ i = j := fun hh => hji hh.symm
      simp [hji, hij]
  simp only [h]
  exact row_count i

theorem maxMargin_selected_eq (margin : ℝ) {n : ℕ} (x : Fin n → Fin n → ℝ) :
    MaxMarginRankingLoss_forward margin x
      = maxMarginSum margin x / (2 * (n * (n - 1)) : ℕ) := by
  set keep : Fin n → Fin n → ℝ := (fun i j => 1 - (if i = j then (1 : ℝ) else 0)) with hkeep
  set p : ℝ × (ℝ × ℝ) → Bool := (fun q => decide (q.1 ≠ 0)) with hp
  set G : ℝ × ℝ → ℝ := (fun q => max (margin - (q.1 - q.2)) 0) with hG
  set big : List (ℝ × (ℝ × ℝ)) :=
    (flat2 keep ++ flat2 (transposeM keep)).zip
      ((flat2 (fun i (_ : Fin n) => x i i) ++ flat2 (fun i (_ : Fin n) => x i i)).zip
        (flat2 x ++ flat2 (transposeM x))) with hbigdef
  have e1 : MaxMarginRankingLoss_forward margin x
      = (((big.filter p).map Prod.snd).map G).sum
        / (((big.filter p).map Prod.snd).map G).length := rfl
  rw [e1]
  have hlen1 : (flat2 (fun i (_ : Fin n) => x i i)).length = (flat2 x).length := by
    rw [length_flat2, length_flat2]
  have hlen2 : (flat2 keep).length
      = (flat2 (fun i j : Fin n => (x i i, x i j))).length := by
    rw [length_flat2, length_flat2]
  have hbig : big = flat2 (fun i j => (keep i j, (x i i, x i j)))
      ++ flat2 (fun i j => (keep j i, (x i i, x j i))) := by
    rw [hbigdef, List.zip_append hlen1, zip_flat2, zip_flat2,
      List.zip_append hlen2, zip_flat2, zip_flat2]
    rfl
  rw [hbig, List.filter_append, List.map_append, List.map_append, List.map_map, List.map_map,
    List.sum_append, List.length_append, List.length_map, List.length_map,
    flat2_filter_map_sum _ p (G ∘ Prod.snd),
    flat2_filter_map_sum _ p (G ∘ Prod.snd), flat2_filter_length, flat2_filter_length]
  have hite1 : ∀ i j : Fin n,
      (if p (keep i j, (x i i, x i j)) then (G ∘ Prod.snd) (keep i j, (x i i, x i j)) else 0)
        = if i = j then 0 else max (margin - (x i i - x i j)) 0 := by
    intro i j
    by_cases h : i = j <;> simp [hp, hkeep, hG, h]
  have hite2 : ∀ i j : Fin n,
      (if p (keep j i, (x i i, x j i)) then (G ∘ Prod.snd) (keep j i, (x i i, x j i)) else 0)
        = if i = j then 0 else max (margin - (x i i - x j i)) 0 := by
    intro i j
    by_cases h : i = j
    · simp [hp, hkeep, hG, h]
    · have h' : ¬ j = i := fun hji => h hji.symm
      simp [hp, hkeep, hG, h, h']
  have hcnt1 : ∀ i j : Fin n,
      (if p (keep i j, (x i i, x i j)) then (1 : ℕ) else 0) = if i = j then 0 else 1 := by
    intro i j
    by_cases h : i = j <;> simp [hp, hkeep, h]
  have hcnt2 : ∀ i j : Fin n,
      (if p (keep j i, (x i i, x j i)) then (1 : ℕ) else 0) = if i = j then 0 else 1 := by
    intro i j
    by_cases h : i = j
    · simp [hp, hkeep, h]
    · have h' : ¬ j = i := fun hji => h hji.symm
      simp [hp, hkeep, h, h']
  simp only [hite1, hite2, hcnt1, hcnt2, row_count, row_count']
  have hsum : maxMarginSum margin x
      = (∑ i : Fin n, ∑ j : Fin n, if i = j then 0 else max (margin - (x i i - x i j)) 0)
        + ∑ i : Fin n, ∑ j : Fin n, if i = j then 0 else max (margin - (x i i - x j i)) 0 := by
    rw [maxMarginSum, ← Finset.sum_add_distrib]
    refine Finset.sum_congr rfl fun i _ => ?_
    rw [← Finset.sum_add_distrib]
    refine Finset.sum_congr rfl fun j _ => ?_
    by_cases h : i = j <;> simp [h]
  rw [hsum]
  have hden : ((∑ _i : Fin n, (n - 1)) + ∑ _i : Fin n, (n - 1) : ℕ) = 2 * (n * (n - 1)) := by
    simp [Finset.sum_const, Finset.card_univ, Fintype.card_fin, smul_eq_mul]
    ring
  rw [hden]

theorem maxMarginSum_eq_zero_iff (margin : ℝ) {n : ℕ} (x : Fin n → Fin n → ℝ) :
    maxMarginSum margin x = 0 ↔
      ∀ i j : Fin n, i ≠ j → margin ≤ x i i - x i j ∧ margin ≤ x i i - x j i := by
  unfold maxMarginSum
  have hterm : ∀ i j : Fin n, (0 : ℝ) ≤ (if i = j then 0
      else max (margin - (x i i - x i j)) 0 + max (margin - (x i i - x j i)) 0) := by
    intro i j
    by_cases h : i = j
    · simp [h]
    · simp only [if_neg h]
      exact add_nonneg (le_max_right _ _) (le_max_right _ _)
  rw [Finset.sum_eq_zero_iff_of_nonneg
    (fun i _ => Finset.sum_nonneg (fun j _ => hterm i j))]
  constructor
  · intro h i j hij
    have hi := h i (Finset.mem_univ i)
    rw [Finset.sum_eq_zero_iff_of_nonneg (fun j _ => hterm i j)] at hi
    have hij' := hi j (Finset.mem_univ j)
    rw [if_neg hij] at hij'
    rw [add_eq_zero_iff_of_nonneg (le_max_right _ _) (le_max_right _ _)] at hij'
    obtain ⟨ha, hb⟩ := hij'
    constructor
    · have h1 := max_eq_right_iff.mp ha
      linarith
    · have h2 := max_eq_right_iff.mp hb
      linarith
  · intro hall i _
    apply Finset.sum_eq_zero
    intro j _
    by_cases h : i = j
    · rw [if_pos h]
    · rw [if_neg h]
      obtain ⟨h1, h2⟩ := hall i j h
      rw [max_eq_right (by linarith), max_eq_right (by linarith), add_zero]

/-- **C1.** For every real square `n × n` matrix `x` with `n ≥ 2`,
`MaxMarginRankingLoss` with `fix_norm=True` and margin `m` returns the mean over
all `2·n·(n-1)` off-diagonal comparisons, i.e.
`forward(x) = (1/(2n(n-1))) · ∑_{i ≠ j} (relu(m - (x[i][i] - x[i][j])) + relu(m - (x[i][i] - x[j][i])))`. -/
theorem maxmargin_forward_eq_offdiag_mean (margin : ℝ) {n : ℕ} (hn : 2 ≤ n)
    (x : Fin n → Fin n → ℝ) :
    MaxMarginRankingLoss_forward margin x
      = (1 / (2 * (n : ℝ) * ((n : ℝ) - 1))) *
          ∑ i : Fin n, ∑ j : Fin n,
            (if i = j then 0
             else max (margin - (x i i - x i j)) 0 + max (margin - (x i i - x j i)) 0) := by
  rw [maxMargin_selected_eq]
  have h1 : (1 : ℕ) ≤ n := le_trans one_le_two hn
  have hcast : ((2 * (n * (n - 1)) : ℕ) : ℝ) = 2 * (n : ℝ) * ((n : ℝ) - 1) := by
    push_cast [Nat.cast_sub h1]
    ring
  rw [hcast]
  simp only [maxMarginSum]
  ring

/-- Witness for C1 at `n = 2`, `margin = 1`, `x = 0`. -/
theorem maxmargin_forward_eq_offdiag_mean_witness :
    2 ≤ 2 ∧
      MaxMarginRankingLoss_forward 1 (fun _ _ : Fin 2 => (0 : ℝ))
        = (1 / (2 * ((2 : ℕ) : ℝ) * (((2 : ℕ) : ℝ) - 1))) *
            ∑ i : Fin 2, ∑ j : Fin 2,
              (if i = j then 0
               else max ((1 : ℝ) - ((0 : ℝ) - 0)) 0 + max ((1 : ℝ) - ((0 : ℝ) - 0)) 0) :=
  ⟨le_refl 2, maxmargin_forward_eq_offdiag_mean 1 (le_refl 2) (fun _ _ => (0 : ℝ))⟩

/-- **C7.** For every real square `n × n` matrix `x` with `n ≥ 2`,
`MaxMarginRankingLoss` with `fix_norm=True` and margin `m` returns exactly `0`
iff every diagonal score exceeds every non-matching score in its row and in its
column by at least the margin: `x[i][i] - x[i][j] ≥ m` and `x[i][i] - x[j][i] ≥ m`
for all `i ≠ j`. -/
theorem maxmargin_forward_zero_iff (margin : ℝ) {n : ℕ} (hn : 2 ≤ n)
    (x : Fin n → Fin n → ℝ) :
    MaxMarginRankingLoss_forward margin x = 0 ↔
      ∀ i j : Fin n, i ≠ j → margin ≤ x i i - x i j ∧ margin ≤ x i i - x j i := by
  rw [maxMargin_selected_eq, div_eq_zero_iff]
  have hD : ((2 * (n * (n - 1)) : ℕ) : ℝ) ≠ 0 := by
    have hpos : 0 < 2 * (n * (n - 1)) :=
      Nat.mul_pos (by norm_num) (Nat.mul_pos (by omega) (by omega))
    exact_mod_cast Nat.pos_iff_ne_zero.mp hpos
  constructor
  · rintro (hS | hD0)
    · exact (maxMarginSum_eq_zero_iff margin x).mp hS
    · exact absurd hD0 hD
  · intro h
    exact Or.inl ((maxMarginSum_eq_zero_iff margin x).mpr h)

/-- Witness for C7 at `n = 2`, `margin = 1`, `x = identity-like scores`:
the matrix with diagonal `2` and off-diagonal `0` satisfies all margin
constraints, so the loss is `0`. -/
theorem maxmargin_forward_zero_iff_witness :
    2 ≤ 2 ∧
      (MaxMarginRankingLoss_forward 1 (fun i j : Fin 2 => if i = j then (2 : ℝ) else 0) = 0 ↔
        ∀ i j : Fin 2, i ≠ j →
          (1 : ℝ) ≤ (if i = i then (2 : ℝ) else 0) - (if i = j then (2 : ℝ) else 0) ∧
          (1 : ℝ) ≤ (if i = i then (2 : ℝ) else 0) - (if j = i then (2 : ℝ) else 0)) :=
  ⟨le_refl 2, maxmargin_forward_zero_iff 1 (le_refl 2) _⟩

/-! ### `InfoNceLoss` and `BarlowTwinsLoss` (src/model/loss.py) -/

/-- Embedding of `th.nn.CrossEntropyLoss()` (mean reduction) with integer class
targets, in the log-sum-exp form of the PyTorch documentation:
`ℓ(x, y) = (1/N) ∑_i ( -x[i][y[i]] + log ∑_j exp(x[i][j]) )`. -/
noncomputable def crossEntropyLoss {n m : ℕ} (x : Fin n → Fin m → ℝ)
    (target : Fin n → Fin m) : ℝ :=
  (∑ i : Fin n, (-(x i (target i)) + Real.log (∑ j : Fin m, Real.exp (x i j)))) / n

/-- Embedding of `InfoNceLoss.forward` (src/model/loss.py lines 88-95).
The in-place update `x /= self.T` is modeled by state passing: the returned
pair is `(loss, final contents of the caller's tensor)`; `target = th.arange(n)`. -/
noncomputable def InfoNceLoss_forward {n : ℕ} (T : ℝ) (x : Fin n → Fin n → ℝ) :
    ℝ × (Fin n → Fin n → ℝ) :=
  let x' : Fin n → Fin n → ℝ := fun i j => x i j / T
  let target : Fin n → Fin n := fun i => i
  (crossEntropyLoss x' target + crossEntropyLoss (transposeM x') target, x')

/-- Embedding of `BarlowTwinsLoss.forward` (src/model/loss.py lines 111-121).
Despite the class name, the active code divides `c` in place by the constant
`0.07` and computes the same cross-entropy objective as `InfoNceLoss`; the
Barlow Twins cross-correlation computation appears only in a commented-out
block.  `lambd` (`self.lambd`) is stored but never read by the active code. -/
noncomputable def BarlowTwinsLoss_forward {d : ℕ} (lambd : ℝ)
    (c : Fin d → Fin d → ℝ) : ℝ × (Fin d → Fin d → ℝ) :=
  let c' : Fin d → Fin d → ℝ := fun i j => c i j / (7 / 100 : ℝ)
  let target : Fin d → Fin d := fun i => i
  (crossEntropyLoss c' target + crossEntropyLoss (transposeM c') target, c')

/-- The Barlow Twins cross-correlation objective that the spec claim attributes
to `BarlowTwinsLoss.forward`: `∑_i (c[i][i] - 1)² + λ · ∑_{i ≠ j} c[i][j]²`
(this is the computation in the commented-out block of the method). -/
noncomputable def barlowTwinsObjective {d : ℕ} (lambd : ℝ)
    (c : Fin d → Fin d → ℝ) : ℝ :=
  (∑ i : Fin d, (c i i - 1) ^ 2) + lambd * ∑ i : Fin d, ∑ j : Fin d,
    (if i = j then 0 else (c i j) ^ 2)

/-- **C4.** For every real square `n × n` matrix `x`,
`InfoNceLoss(temperature T).forward(x)` returns `CE(x/T, t) + CE((x/T)ᵀ, t)`
where `t = [0, …, n-1]` and `CE` is mean-reduced softmax cross-entropy: the
per-row loss is `-log(exp(z[i][i]) / ∑_j exp(z[i][j]))` for `z = x/T`. -/
theorem infonce_forward_eq_softmax_ce {n : ℕ} (T : ℝ) (x : Fin n → Fin n → ℝ) :
    (InfoNceLoss_forward T x).1
      = (∑ i : Fin n,
           -Real.log (Real.exp (x i i / T) / ∑ j : Fin n, Real.exp (x i j / T))) / n
        + (∑ i : Fin n,
           -Real.log (Real.exp (x i i / T) / ∑ j : Fin n, Real.exp (x j i / T))) / n := by
  have e : (InfoNceLoss_forward T x).1
      = crossEntropyLoss (fun i j => x i j / T) (fun i => i)
        + crossEntropyLoss (transposeM (fun i j => x i j / T)) (fun i => i) := rfl
  rw [e]
  simp only [crossEntropyLoss, transposeM]
  congr 1
  · congr 1
    refine Finset.sum_congr rfl fun i _ => ?_
    have hS : (0 : ℝ) < ∑ j : Fin n, Real.exp (x i j / T) :=
      Finset.sum_pos (fun j _ => Real.exp_pos _) ⟨i, Finset.mem_univ i⟩
    rw [Real.log_div (Real.exp_ne_zero _) (ne_of_gt hS), Real.log_exp]
    ring
  · congr 1
    refine Finset.sum_congr rfl fun i _ => ?_
    have hS : (0 : ℝ) < ∑ j : Fin n, Real.exp (x j i / T) :=
      Finset.sum_pos (fun j _ => Real.exp_pos _) ⟨i, Finset.mem_univ i⟩
    rw [Real.log_div (Real.exp_ne_zero _) (ne_of_gt hS), Real.log_exp]
    ring

/-- Counterexample to **C3** as stated: at `c = [[0]]` (`d = 1`) and
`λ = 0.0051`, `BarlowTwinsLoss.forward` returns `0` (a `1 × 1` cross-entropy
is always `0`) while the Barlow Twins objective is `(0 - 1)² = 1`. -/
theorem barlowtwins_forward_ne_objective :
    (BarlowTwinsLoss_forward (51 / 10000) (fun _ _ : Fin 1 => (0 : ℝ))).1
      ≠ barlowTwinsObjective (51 / 10000) (fun _ _ : Fin 1 => (0 : ℝ)) := by
  have hL : (BarlowTwinsLoss_forward (51 / 10000) (fun _ _ : Fin 1 => (0 : ℝ))).1 = 0 := by
    have e : (BarlowTwinsLoss_forward (51 / 10000) (fun _ _ : Fin 1 => (0 : ℝ))).1
        = crossEntropyLoss (fun i j : Fin 1 => (0 : ℝ) / (7 / 100)) (fun i => i)
          + crossEntropyLoss (transposeM (fun i j : Fin 1 => (0 : ℝ) / (7 / 100)))
              (fun i => i) := rfl
    rw [e]
    simp [crossEntropyLoss, transposeM, Real.exp_zero, Real.log_one]
  have hR : barlowTwinsObjective (51 / 10000) (fun _ _ : Fin 1 => (0 : ℝ)) = 1 := by
    simp [barlowTwinsObjective]
  rw [hL, hR]
  norm_num

/-- **C3 (amended).** `BarlowTwinsLoss(λ).forward(c)` does not compute the
Barlow Twins cross-correlation objective (that code is commented out); for
every real square matrix `c` it computes exactly the same InfoNCE-style
cross-entropy loss as `InfoNceLoss` with temperature `0.07`, independently
of `λ`. -/
theorem barlowtwins_forward_eq_infonce {d : ℕ} (lambd : ℝ)
    (c : Fin d → Fin d → ℝ) :
    (BarlowTwinsLoss_forward lambd c).1 = (InfoNceLoss_forward (7 / 100) c).1 := rfl

/-- Counterexample to **C8** as stated ("the caller's tensor no longer holds
its original values" for *every* input): at the zero matrix the tensor is
unchanged by the in-place division. -/
theorem losses_inplace_unchanged_on_zero :
    (InfoNceLoss_forward (7 / 100) (fun _ _ : Fin 1 => (0 : ℝ))).2
        = (fun _ _ : Fin 1 => (0 : ℝ))
      ∧ (BarlowTwinsLoss_forward (51 / 10000) (fun _ _ : Fin 1 => (0 : ℝ))).2
        = (fun _ _ : Fin 1 => (0 : ℝ)) := by
  constructor
  · funext i j
    show (0 : ℝ) / (7 / 100) = 0
    rw [zero_div]
  · funext i j
    show (0 : ℝ) / (7 / 100) = 0
    rw [zero_div]

/-- **C8 (amended).** `InfoNceLoss.forward` and `BarlowTwinsLoss.forward`
mutate their input in place: after the call the caller's tensor holds `x`
divided by the temperature (`self.T` for `InfoNceLoss`, the constant `0.07`
for `BarlowTwinsLoss`).  The values differ from the originals at every entry
`x[i][j] ≠ 0` provided `T ≠ 1` (for `BarlowTwinsLoss`, `T = 0.07 ≠ 1`), but
coincide with them e.g. at the zero matrix. -/
theorem losses_divide_input_in_place :
    (∀ (n : ℕ) (T : ℝ) (x : Fin n → Fin n → ℝ),
        (InfoNceLoss_forward T x).2 = fun i j => x i j / T)
    ∧ (∀ (d : ℕ) (lambd : ℝ) (c : Fin d → Fin d → ℝ),
        (BarlowTwinsLoss_forward lambd c).2 = fun i j => c i j / (7 / 100))
    ∧ (∀ (n : ℕ) (T : ℝ) (x : Fin n → Fin n → ℝ) (i j : Fin n),
        x i j ≠ 0 → T ≠ 1 → (InfoNceLoss_forward T x).2 i j ≠ x i j) := by
  refine ⟨fun n T x => rfl, fun d lambd c => rfl, fun n T x i j hx hT1 h => ?_⟩
  by_cases hT : T = 0
  · rw [show (InfoNceLoss_forward T x).2 i j = x i j / T from rfl, hT, div_zero] at h
    exact hx h.symm
  · rw [show (InfoNceLoss_forward T x).2 i j = x i j / T from rfl, div_eq_iff hT] at h
    have h2 : x i j * T = x i j * 1 := by rw [mul_one]; exact h.symm
    exact hT1 (mul_left_cancel₀ hx h2)

/-- Witness for C8 at `n = 1`, `T = 2`, `x = [[1]]`: the entry is nonzero and
the temperature is not `1`, so the stored tensor changes. -/
theorem losses_divide_input_in_place_witness :
    ((fun _ _ : Fin 1 => (1 : ℝ)) 0 0 ≠ 0) ∧ ((2 : ℝ) ≠ 1)
      ∧ (InfoNceLoss_forward 2 (fun _ _ : Fin 1 => (1 : ℝ))).2 0 0
          ≠ (fun _ _ : Fin 1 => (1 : ℝ)) 0 0 :=
  ⟨by norm_num, by norm_num,
    losses_divide_input_in_place.2.2 1 2 (fun _ _ => (1 : ℝ)) 0 0
      (by norm_num) (by norm_num)⟩

/-! ### L2 normalization (`F.normalize`) and `sharded_cross_view_inner_product` -/

/-- L2 norm of a vector: `‖v‖₂ = √(∑ k, v k ²)`. -/
noncomputable def l2norm {d : ℕ} (v : Fin d → ℝ) : ℝ :=
  Real.sqrt (∑ k : Fin d, v k ^ 2)

/-- Embedding of `F.normalize(·, dim=·)` on one vector slice: division by the
L2 norm (the float-stability `eps=1e-12` is dropped in the real-number
idealization; at the zero vector both semantics produce the zero vector,
here via division by zero). -/
noncomputable def l2normalize {d : ℕ} (v : Fin d → ℝ) : Fin d → ℝ :=
  fun k => v k / l2norm v

theorem l2norm_pos {d : ℕ} {v : Fin d → ℝ} (hv : v ≠ 0) : 0 < l2norm v := by
  obtain ⟨k0, hk0⟩ := Function.ne_iff.mp hv
  refine Real.sqrt_pos.mpr (Finset.sum_pos' (fun k _ => sq_nonneg _) ⟨k0, Finset.mem_univ k0, ?_⟩)
  exact sq_pos_of_ne_zero hk0

/-- Normalized inner product equals the quotient of the raw inner product by
the product of norms (no nonzero hypothesis needed: division by zero is junk
on both sides). -/
theorem sum_normalize_mul {d : ℕ} (u v : Fin d → ℝ) :
    (∑ k : Fin d, l2normalize u k * l2normalize v k)
      = (∑ k : Fin d, u k * v k) / (l2norm u * l2norm v) := by
  simp only [l2normalize, div_mul_div_comm]
  rw [Finset.sum_div]

theorem abs_sum_mul_le_norm_mul_norm {d : ℕ} (u v : Fin d → ℝ) :
    |∑ k : Fin d, u k * v k| ≤ l2norm u * l2norm v := by
  rw [abs_le]
  constructor
  · have h := Real.sum_mul_le_sqrt_mul_sqrt Finset.univ (fun k => -u k) v
    simp only [neg_mul, Finset.sum_neg_distrib, neg_sq] at h
    have h' : -(l2norm u * l2norm v) ≤ ∑ k : Fin d, u k * v k := by
      rw [neg_le]
      exact h
    exact h'
  · exact Real.sum_mul_le_sqrt_mul_sqrt Finset.univ u v

/-- Embedding of `sharded_cross_view_inner_product` (src/model/MMTwins.py lines
647-655): both representation matrices are row-normalized (`F.normalize(·, dim=1)`)
and the result is `txt_rep_norm @ vid_rep_norm.T`, an `n × m` matrix for `n`
captions and `m` videos. `subspaces` is accepted and ignored, as in the source. -/
noncomputable def sharded_cross_view_inner_product {n m d : ℕ}
    (vid_rep : Fin m → Fin d → ℝ) (txt_rep : Fin n → Fin d → ℝ)
    (subspaces : List ℕ) : Fin n → Fin m → ℝ :=
  let txt_rep_norm := fun i => l2normalize (txt_rep i)
  let vid_rep_norm := fun j => l2normalize (vid_rep j)
  fun i j => ∑ k : Fin d, txt_rep_norm i k * vid_rep_norm j k

/-- **C6.** For caption matrix `T` (`n × d`) and video matrix `V` (`m × d`)
with all rows nonzero, `sharded_cross_view_inner_product(vid_rep=V, txt_rep=T, _)`
returns the `n × m` matrix of cosine similarities
`⟨T_i, V_j⟩ / (‖T_i‖·‖V_j‖)`, and every entry lies in `[-1, 1]`. -/
theorem sharded_cross_view_inner_product_cosine {n m d : ℕ}
    (vid_rep : Fin m → Fin d → ℝ) (txt_rep : Fin n → Fin d → ℝ) (subspaces : List ℕ)
    (hT : ∀ i, txt_rep i ≠ 0) (hV : ∀ j, vid_rep j ≠ 0) (i : Fin n) (j : Fin m) :
    sharded_cross_view_inner_product vid_rep txt_rep subspaces i j
        = (∑ k : Fin d, txt_rep i k * vid_rep j k)
            / (l2norm (txt_rep i) * l2norm (vid_rep j))
      ∧ -1 ≤ sharded_cross_view_inner_product vid_rep txt_rep subspaces i j
      ∧ sharded_cross_view_inner_product vid_rep txt_rep subspaces i j ≤ 1 := by
  have ha : 0 < l2norm (txt_rep i) := l2norm_pos (hT i)
  have hb : 0 < l2norm (vid_rep j) := l2norm_pos (hV j)
  have heq : sharded_cross_view_inner_product vid_rep txt_rep subspaces i j
      = (∑ k : Fin d, txt_rep i k * vid_rep j k)
          / (l2norm (txt_rep i) * l2norm (vid_rep j)) := by
    have e : sharded_cross_view_inner_product vid_rep txt_rep subspaces i j
        = ∑ k : Fin d, l2normalize (txt_rep i) k * l2normalize (vid_rep j) k := rfl
    rw [e, sum_normalize_mul]
  have hcs := abs_sum_mul_le_norm_mul_norm (txt_rep i) (vid_rep j)
  rw [abs_le] at hcs
  refine ⟨heq, ?_, ?_⟩
  · rw [heq, le_div_iff (mul_pos ha hb)]
    linarith [hcs.1]
  · rw [heq, div_le_one (mul_pos ha hb)]
    exact hcs.2

/-- Witness for C6 at `n = m = d = 1`, `T = V = [[1]]`: the single row `(1)` is
nonzero, the similarity is `1/(1*1) = 1`, within `[-1, 1]`. -/
theorem sharded_cross_view_inner_product_cosine_witness :
    ((fun _ : Fin 1 => (1 : ℝ)) ≠ 0)
      ∧ (sharded_cross_view_inner_product (fun _ _ : Fin 1 => (1 : ℝ))
            (fun _ _ : Fin 1 => (1 : ℝ)) [] 0 0
          = (∑ k : Fin 1, (1 : ℝ) * 1)
              / (l2norm (fun _ : Fin 1 => (1 : ℝ)) * l2norm (fun _ : Fin 1 => (1 : ℝ)))
        ∧ -1 ≤ sharded_cross_view_inner_product (fun _ _ : Fin 1 => (1 : ℝ))
            (fun _ _ : Fin 1 => (1 : ℝ)) [] 0 0
        ∧ sharded_cross_view_inner_product (fun _ _ : Fin 1 => (1 : ℝ))
            (fun _ _ : Fin 1 => (1 : ℝ)) [] 0 0 ≤ 1) :=
  ⟨fun h => one_ne_zero (congrFun h 0),
    sharded_cross_view_inner_product_cosine (fun _ _ => 1) (fun _ _ => 1) []
      (fun _ h => one_ne_zero (congrFun h 0)) (fun _ h => one_ne_zero (congrFun h 0)) 0 0⟩

/-! ### `cpt_mean_maximum_similarity` and `cpt_mean_maximum_similarity2` (src/server.py) -/

theorem lin_lt {a b : ℕ} (p : Fin a) (q : Fin b) : p.val * b + q.val < a * b :=
  calc p.val * b + q.val < p.val * b + b := by omega
    _ = (p.val + 1) * b := by ring
    _ ≤ a * b := mul_le_mul_right' (Nat.succ_le_of_lt p.isLt) b

theorem lin_div {a b : ℕ} (p : Fin a) (q : Fin b) : (p.val * b + q.val) / b = p.val := by
  have hb : 0 < b := lt_of_le_of_lt (Nat.zero_le _) q.isLt
  rw [Nat.add_comm, Nat.mul_comm, Nat.add_mul_div_left _ _ hb,
    Nat.div_eq_of_lt q.isLt, Nat.zero_add]

theorem lin_mod {a b : ℕ} (p : Fin a) (q : Fin b) : (p.val * b + q.val) % b = q.val := by
  rw [Nat.add_comm, Nat.mul_comm, Nat.add_mul_mod_self_left, Nat.mod_eq_of_lt q.isLt]

/-- Row-major linear index of a 2-d position, as used by `view`/reshape. -/
def flatIdx {a b : ℕ} (p : Fin a) (q : Fin b) : Fin (a * b) :=
  ⟨p.val * b + q.val, lin_lt p q⟩

theorem view2_b_pos {a b a' b' : ℕ} (h : a * b = a' * b') (p : Fin a') (q : Fin b') :
    0 < b := by
  have hab : 0 < a * b := by rw [h]; exact lt_of_le_of_lt (Nat.zero_le _) (lin_lt p q)
  by_contra hbn
  push_neg at hbn
  rw [Nat.le_zero.mp hbn, Nat.mul_zero] at hab
  exact absurd hab (lt_irrefl 0)

theorem view2_div_lt {a b a' b' : ℕ} (h : a * b = a' * b') (p : Fin a') (q : Fin b') :
    (p.val * b' + q.val) / b < a := by
  rw [Nat.div_lt_iff_lt_mul (view2_b_pos h p q)]
  exact lt_of_lt_of_eq (lin_lt p q) h.symm

/-- `tensor.view(a', b')` of an `a × b` matrix: row-major reshape. -/
def view2 {α : Type} {a b a' b' : ℕ} (h : a * b = a' * b') (M : Fin a → Fin b → α) :
    Fin a' → Fin b' → α := fun p q =>
  M ⟨(p.val * b' + q.val) / b, view2_div_lt h p q⟩
    ⟨(p.val * b' + q.val) % b, Nat.mod_lt _ (view2_b_pos h p q)⟩

theorem view2_self {α : Type} {a b : ℕ} (h : a * b = a * b) (M : Fin a → Fin b → α)
    (p : Fin a) (q : Fin b) : view2 h M p q = M p q := by
  unfold view2
  rw [show (⟨(p.val * b + q.val) / b, view2_div_lt h p q⟩ : Fin a) = p
        from Fin.ext (lin_div p q),
      show (⟨(p.val * b + q.val) % b, Nat.mod_lt _ (view2_b_pos h p q)⟩ : Fin b) = q
        from Fin.ext (lin_mod p q)]

/-- A `view(b, a)` of an `a × b` matrix when `a = b` keeps the entries in
place: entry `(p, q)` of the reshaped matrix is entry `(p, q)` of the
original (indices transported along `a = b`), *not* the transposed entry. -/
theorem view2_swap_of_eq {α : Type} {a b : ℕ} (hab : a = b) (h : a * b = b * a)
    (M : Fin a → Fin b → α) (p : Fin b) (q : Fin a) :
    view2 h M p q = M (Fin.cast hab.symm p) (Fin.cast hab q) := by
  subst hab
  unfold view2
  rw [show (⟨(p.val * a + q.val) / a, view2_div_lt h p q⟩ : Fin a) = Fin.cast rfl p
        from Fin.ext (lin_div p q),
      show (⟨(p.val * a + q.val) % a, Nat.mod_lt _ (view2_b_pos h p q)⟩ : Fin a) = Fin.cast rfl q
        from Fin.ext (lin_mod p q)]

theorem fin_mul_pos_right {n m : ℕ} (r : Fin (n * m)) : 0 < m := by
  rcases Nat.eq_zero_or_pos m with h0 | h1
  · exact absurd (lt_of_lt_of_le r.isLt (le_of_eq (by rw [h0, Nat.mul_zero])))
      (Nat.not_lt_zero _)
  · exact h1

/-- Projection to the first (row) index of a row-major flattened pair. -/
def unflat1 {n m : ℕ} (r : Fin (n * m)) : Fin n :=
  ⟨r.val / m, by
    rw [Nat.div_lt_iff_lt_mul (fin_mul_pos_right r)]
    exact r.isLt⟩

/-- Projection to the second (column) index of a row-major flattened pair. -/
def unflat2 {n m : ℕ} (r : Fin (n * m)) : Fin m :=
  ⟨r.val % m, Nat.mod_lt _ (fin_mul_pos_right r)⟩

theorem unflat1_flatIdx {n m : ℕ} (p : Fin n) (q : Fin m) :
    unflat1 (flatIdx p q) = p :=
  Fin.ext (lin_div p q)

theorem unflat2_flatIdx {n m : ℕ} (p : Fin n) (q : Fin m) :
    unflat2 (flatIdx p q) = q :=
  Fin.ext (lin_mod p q)

/-- `th.max(·, dim=·)[0]` along a nonempty `Fin (k+1)`-indexed dimension. -/
noncomputable def fmax {k : ℕ} (f : Fin (k + 1) → ℝ) : ℝ :=
  Finset.univ.sup' Finset.univ_nonempty f

/-- `th.mean(·, dim=·)` along a `Fin (k+1)`-indexed dimension. -/
noncomputable def fmean {k : ℕ} (f : Fin (k + 1) → ℝ) : ℝ :=
  (∑ a : Fin (k + 1), f a) / (k + 1)

/-- Embedding of `cpt_mean_maximum_similarity` (src/server.py lines 5-24).
Token dimensions are written `tt+1`/`vt+1` because `th.max` requires a
nonempty dimension.  Each `let` mirrors one source statement:
`unsqueeze/repeat` become index broadcasting, `matmul` with
`permute(0,1,3,2)` is the inner product over the feature dimension, and the
final `.view(txt_bs, vid_bs)` / `.view(vid_bs, txt_bs)` calls are row-major
reshapes (`view2`). -/
noncomputable def cpt_mean_maximum_similarity {vb tb vt tt d : ℕ}
    (vid_rep : Fin vb → Fin (vt + 1) → Fin d → ℝ)
    (txt_rep : Fin tb → Fin (tt + 1) → Fin d → ℝ) :
    (Fin tb → Fin vb → ℝ) × (Fin vb → Fin tb → ℝ) :=
  let txt_rep_norm := fun i a => l2normalize (txt_rep i a)
  let vid_rep_norm := fun j b => l2normalize (vid_rep j b)
  let txt_rep_norm4 : Fin tb → Fin vb → Fin (tt + 1) → Fin d → ℝ :=
    fun i _ a k => txt_rep_norm i a k
  let vid_rep_norm4 : Fin tb → Fin vb → Fin (vt + 1) → Fin d → ℝ :=
    fun _ j b k => vid_rep_norm j b k
  let sim : Fin tb → Fin vb → Fin (tt + 1) → Fin (vt + 1) → ℝ :=
    fun i j a b => ∑ k : Fin d, txt_rep_norm4 i j a k * vid_rep_norm4 i j b k
  let t2v0 : Fin tb → Fin vb → ℝ := fun i j => fmean (fun a => fmax (fun b => sim i j a b))
  let v2t0 : Fin tb → Fin vb → ℝ := fun i j => fmean (fun b => fmax (fun a => sim i j a b))
  let t2v := view2 rfl t2v0
  let v2t := view2 (Nat.mul_comm tb vb) v2t0
  (t2v, v2t)

/-- Embedding of `cpt_mean_maximum_similarity2` (src/server.py lines 26-44):
the token matrices are flattened to `[bs·tokens, dim]`, a single `matmul`
computes all pairwise inner products, and the result is viewed back as
`[tb, tt, vb, vt]` before the max/mean reductions. -/
noncomputable def cpt_mean_maximum_similarity2 {vb tb vt tt d : ℕ}
    (vid_rep : Fin vb → Fin (vt + 1) → Fin d → ℝ)
    (txt_rep : Fin tb → Fin (tt + 1) → Fin d → ℝ) :
    (Fin tb → Fin vb → ℝ) × (Fin tb → Fin vb → ℝ) :=
  let txt_rep_norm := fun i a => l2normalize (txt_rep i a)
  let vid_rep_norm := fun j b => l2normalize (vid_rep j b)
  let txt_flat : Fin (tb * (tt + 1)) → Fin d → ℝ :=
    fun r k => txt_rep_norm (unflat1 r) (unflat2 r) k
  let vid_flat : Fin (vb * (vt + 1)) → Fin d → ℝ :=
    fun c k => vid_rep_norm (unflat1 c) (unflat2 c) k
  let sim_flat : Fin (tb * (tt + 1)) → Fin (vb * (vt + 1)) → ℝ :=
    fun r c => ∑ k : Fin d, txt_flat r k * vid_flat c k
  let sim : Fin tb → Fin (tt + 1) → Fin vb → Fin (vt + 1) → ℝ :=
    fun i a j b => sim_flat (flatIdx i a) (flatIdx j b)
  let t2v : Fin tb → Fin vb → ℝ := fun i j => fmean (fun a => fmax (fun b => sim i a j b))
  let v2t : Fin tb → Fin vb → ℝ := fun i j => fmean (fun b => fmax (fun a => sim i a j b))
  (t2v, v2t)

/-- **C2.** For all 3-d inputs `vid_rep : [vb, vt, d]`, `txt_rep : [tb, tt, d]`
with nonzero token vectors, `cpt_mean_maximum_similarity` and
`cpt_mean_maximum_similarity2` return elementwise-equal `t2v` matrices; each
`t2v[i][j]` is the mean over text tokens of caption `i` of the max over video
tokens of video `j` of the cosine similarity between the token embeddings;
and when `tb = vb` the `v2t` matrices are also elementwise equal (indices of
the first method's `.view(vid_bs, txt_bs)` output transported along `tb = vb`). -/
theorem cpt_mms_methods_agree {vb tb vt tt d : ℕ}
    (vid_rep : Fin vb → Fin (vt + 1) → Fin d → ℝ)
    (txt_rep : Fin tb → Fin (tt + 1) → Fin d → ℝ)
    (hT : ∀ i a, txt_rep i a ≠ 0) (hV : ∀ j b, vid_rep j b ≠ 0) :
    (∀ i j, (cpt_mean_maximum_similarity vid_rep txt_rep).1 i j
        = (cpt_mean_maximum_similarity2 vid_rep txt_rep).1 i j)
    ∧ (∀ i j, (cpt_mean_maximum_similarity vid_rep txt_rep).1 i j
        = fmean (fun a => fmax (fun b =>
            (∑ k : Fin d, txt_rep i a k * vid_rep j b k)
              / (l2norm (txt_rep i a) * l2norm (vid_rep j b)))))
    ∧ (∀ (hbt : tb = vb) (p : Fin vb) (q : Fin tb),
        (cpt_mean_maximum_similarity vid_rep txt_rep).2 p q
          = (cpt_mean_maximum_similarity2 vid_rep txt_rep).2
              (Fin.cast hbt.symm p) (Fin.cast hbt q)) := by
  have h1 : ∀ (i : Fin tb) (j : Fin vb),
      (cpt_mean_maximum_similarity vid_rep txt_rep).1 i j
        = fmean (fun a => fmax (fun b =>
            ∑ k : Fin d, l2normalize (txt_rep i a) k * l2normalize (vid_rep j b) k)) := by
    intro i j
    have e : (cpt_mean_maximum_similarity vid_rep txt_rep).1 i j
        = view2 rfl (fun i' j' => fmean (fun a => fmax (fun b =>
            ∑ k : Fin d, l2normalize (txt_rep i' a) k * l2normalize (vid_rep j' b) k)))
            i j := rfl
    rw [e, view2_self]
  have h2 : ∀ (i : Fin tb) (j : Fin vb),
      (cpt_mean_maximum_similarity2 vid_rep txt_rep).1 i j
        = fmean (fun a => fmax (fun b =>
            ∑ k : Fin d, l2normalize (txt_rep i a) k * l2normalize (vid_rep j b) k)) := by
    intro i j
    have e : (cpt_mean_maximum_similarity2 vid_rep txt_rep).1 i j
        = fmean (fun a => fmax (fun b => ∑ k : Fin d,
            l2normalize (txt_rep (unflat1 (flatIdx i a)) (unflat2 (flatIdx i a))) k
              * l2normalize (vid_rep (unflat1 (flatIdx j b)) (unflat2 (flatIdx j b))) k)) :=
      rfl
    rw [e]
    simp only [unflat1_flatIdx, unflat2_flatIdx]
  have hv2 : ∀ (i : Fin tb) (j : Fin vb),
      (cpt_mean_maximum_similarity2 vid_rep txt_rep).2 i j
        = fmean (fun b => fmax (fun a =>
            ∑ k : Fin d, l2normalize (txt_rep i a) k * l2normalize (vid_rep j b) k)) := by
    intro i j
    have e : (cpt_mean_maximum_similarity2 vid_rep txt_rep).2 i j
        = fmean (fun b => fmax (fun a => ∑ k : Fin d,
            l2normalize (txt_rep (unflat1 (flatIdx i a)) (unflat2 (flatIdx i a))) k
              * l2normalize (vid_rep (unflat1 (flatIdx j b)) (unflat2 (flatIdx j b))) k)) :=
      rfl
    rw [e]
    simp only [unflat1_flatIdx, unflat2_flatIdx]
  refine ⟨fun i j => by rw [h1, h2], fun i j => by rw [h1]; simp only [sum_normalize_mul],
    fun hbt p q => ?_⟩
  have ev : (cpt_mean_maximum_similarity vid_rep txt_rep).2 p q
      = view2 (Nat.mul_comm tb vb) (fun i' j' => fmean (fun b => fmax (fun a =>
          ∑ k : Fin d, l2normalize (txt_rep i' a) k * l2normalize (vid_rep j' b) k)))
          p q := rfl
  rw [ev, view2_swap_of_eq hbt, hv2]

/-- Witness for C2 at `vb = tb = 1`, `vt = tt = 0`, `d = 1`, all-ones inputs. -/
theorem cpt_mms_methods_agree_witness :
    ((fun _ : Fin 1 => (1 : ℝ)) ≠ 0)
      ∧ (cpt_mean_maximum_similarity (fun _ _ _ : Fin 1 => (1 : ℝ))
            (fun _ _ _ : Fin 1 => (1 : ℝ))).1 0 0
          = (cpt_mean_maximum_similarity2 (fun _ _ _ : Fin 1 => (1 : ℝ))
              (fun _ _ _ : Fin 1 => (1 : ℝ))).1 0 0 :=
  ⟨fun h => one_ne_zero (congrFun h 0),
    (cpt_mms_methods_agree (fun _ _ _ => 1) (fun _ _ _ => 1)
        (fun _ _ h => one_ne_zero (congrFun h 0))
        (fun _ _ h => one_ne_zero (congrFun h 0))).1 0 0⟩

/-! ### Dataflow model of `MMTwins.forward` (src/model/MMTwins.py lines 260-519)

The forward pass is embedded as a dataflow program over an abstract tensor
type `τ`: the external neural modules (`BertModel`, the linear layers, batch
norm) and the primitive tensor operations are opaque functions collected in
an environment `Env τ`, while the control flow (configuration dispatch,
token-sequence assembly, error propagation) is concrete.  Each `let` mirrors
one source statement.  Values the source computes but never reads again
(the modality weights) are bound and then discarded exactly as in the code. -/

inductive VidInp | agg | both | all | temp | vnone
deriving DecidableEq

inductive VidCont | bert | cnone
deriving DecidableEq

inductive PosEnc | ordr | tint | ptype | pnone
deriving DecidableEq

inductive OutTok | sep | mxp | mnp
deriving DecidableEq

inductive VidWgh | nrm | emb | wnone | unsupported
deriving DecidableEq

inductive TxtWgh | emb | wnone | unsupported
deriving DecidableEq

inductive OutMode | conf | corr | embs
deriving DecidableEq

/-- `self.vid_inp in ['agg', 'both', 'all']` (the aggregated-token branch). -/
def VidInp.hasAgg : VidInp → Bool
  | .agg | .both | .all => true
  | _ => false

/-- `self.vid_inp in ['temp', 'both', 'all']` (the temporal-token branch). -/
def VidInp.hasTemp : VidInp → Bool
  | .temp | .both | .all => true
  | _ => false

/-- Configuration of `MMTwins` relevant to `forward` (constructor arguments
stored by `__init__`). `modalities` is the ordered list of expert keys;
`expertIdx` is `expert_dims[mod]['idx']`. -/
structure Config where
  modalities : List ℕ
  expertIdx : ℕ → ℕ
  keep_missing_modalities : Bool
  txtAggBert : Bool
  vid_inp : VidInp
  vid_cont : VidCont
  pos_enc : PosEnc
  out_tok : OutTok
  vid_wgh : VidWgh
  txt_wgh : TxtWgh
  max_position_embeddings : ℕ

/-- The opaque collaborators of `MMTwins.forward` over an abstract tensor
type: the owned `nn.Module`s (named as in `__init__`) and the torch
primitives the method applies to them. -/
structure Env (τ : Type) where
  video_dim_reduce : ℕ → τ → τ
  vid_bert : τ → τ → τ → Option τ → τ → τ
  txt_bert : τ → τ
  txt_avg2rep : τ → τ
  vid_avg2rep : τ → τ
  txt_projector : τ → τ
  vid_projector : τ → τ
  bn : τ → τ
  prep_text : τ → τ
  selTok : τ → ℕ → τ
  meanRest : τ → τ
  maxDim1 : τ → τ
  clampPos : τ → ℕ → τ
  fullConst : ℕ → τ
  zerosFeat : τ
  colTok : τ → ℕ → τ
  stackIds : List ℕ → τ
  stackT : List τ → τ
  norm2 : τ → τ
  stackCols : List τ → τ
  sumDim1 : τ → τ
  divT : τ → τ → τ
  mulT : τ → τ → τ
  onesBM : τ
  onesBCM : τ
  l1normalize : τ → τ
  sharded : τ → τ → List ℕ → τ
  cpt_corr : τ → τ → List ℕ → τ

/-- Per-modality inputs of `forward` (dicts are keyed by modality). -/
structure Inputs (τ : Type) where
  token_ids : τ
  features : ℕ → τ
  features_t : ℕ → τ
  features_ind : ℕ → τ
  features_avgpool : ℕ → τ
  features_maxpool : ℕ → τ
  query_masks : τ
  temporalTokens : ℕ → ℕ

/-- The dictionaries returned by `forward` for `out='conf'`, `out='corr'` and
any other `out` value. -/
inductive Output (τ : Type)
  | conf (modalities : List ℕ) (cross_view_conf_matrix : τ)
  | corr (modalities : List ℕ) (corrletaion_matrix : τ)
  | embs (vid_reps : τ) (text_reps : τ)

/-- `input_ids_list` of the video token assembly (lines 349-425, `th.full`
constants per position, so one `ℕ` per sequence position):
`[CLS]=0`, then per modality an `[AGG]=2` token when the aggregated branch is
active and `T(mod)` `[FEA]=6` tokens when the temporal branch is active. -/
def vidInputIds (vinp : VidInp) (mods : List ℕ) (T : ℕ → ℕ) : List ℕ :=
  [0] ++ mods.flatMap fun k =>
    (if vinp.hasAgg then [2] else [])
      ++ (if vinp.hasTemp then List.replicate (T k) 6 else [])

/-- `token_type_ids_list` of the video token assembly: `0` for `[CLS]`, the
modality's `expert_dims[mod]['idx']` for its `[AGG]` and `[FEA]` tokens. -/
def vidTokenTypeIds (vinp : VidInp) (mods : List ℕ) (idx : ℕ → ℕ) (T : ℕ → ℕ) :
    List ℕ :=
  [0] ++ mods.flatMap fun k =>
    (if vinp.hasAgg then [idx k] else [])
      ++ (if vinp.hasTemp then List.replicate (T k) (idx k) else [])

/-- `features_list` of the video token assembly: zeros for `[CLS]`; for each
`[AGG]` token zeros / the max-pooled / the mean-pooled expert according to
`out_tok`; for each temporal token the corresponding frame feature. -/
def vidFeaturesList {τ : Type} (E : Env τ) (vinp : VidInp) (ot : OutTok)
    (mods : List ℕ) (T : ℕ → ℕ) (maxp mnp feats : ℕ → τ) : List τ :=
  [E.zerosFeat] ++ mods.flatMap fun k =>
    (if vinp.hasAgg then
      [match ot with
       | .sep => E.zerosFeat
       | .mxp => maxp k
       | .mnp => mnp k]
     else [])
      ++ (if vinp.hasTemp then (List.range (T k)).map fun f => E.colTok (feats k) f
          else [])

/-- `attention_mask_list` of the video token assembly: `1` for `[CLS]`,
`ind[mod]` for `[AGG]` tokens, the per-frame indicator column for temporal
tokens. -/
def vidAttnList {τ : Type} (E : Env τ) (vinp : VidInp) (mods : List ℕ)
    (T : ℕ → ℕ) (ind : ℕ → τ) (featsInd : ℕ → τ) : List τ :=
  [E.fullConst 1] ++ mods.flatMap fun k =>
    (if vinp.hasAgg then [ind k] else [])
      ++ (if vinp.hasTemp then (List.range (T k)).map fun f => E.colTok (featsInd k) f
          else [])

/-- `position_ids_list` of the video token assembly: position `0` for `[CLS]`
and `[AGG]` tokens; for temporal tokens `frame_id+1` (`ordr`), the clamped
timestamp column (`tint`), or the constant `1` (`type`).  For
`pos_enc='none'` the stacked result is discarded by `forward` (the `pnone`
arm is never read). -/
def vidPosList {τ : Type} (E : Env τ) (penc : PosEnc) (vinp : VidInp)
    (mods : List ℕ) (T : ℕ → ℕ) (featsT : ℕ → τ) : List τ :=
  [E.fullConst 0] ++ mods.flatMap fun k =>
    (if vinp.hasAgg then [E.fullConst 0] else [])
      ++ (if vinp.hasTemp then
            (List.range (T k)).map fun f =>
              match penc with
              | .ordr => E.fullConst (f + 1)
              | .tint => E.colTok (featsT k) f
              | .ptype => E.fullConst 1
              | .pnone => E.fullConst 0
          else [])

/-- `modality_to_tok_map` (lines 358, 391-392): position of each modality's
`[AGG]` token in the assembled sequence, tracking the running `tok_id`. -/
def modalityTokMap (vinp : VidInp) (T : ℕ → ℕ) : List ℕ → ℕ → List (ℕ × ℕ)
  | [], _ => []
  | k :: rest, tok =>
      (k, tok + 1) :: modalityTokMap vinp T rest
        (tok + 1 + (if vinp.hasTemp then T k else 0))

/-- Embedding of `MMTwins.compute_weights_from_norm` (lines 233-258) in the
2-d (video-expert) case in which `forward` calls it: the per-modality L2
norms are stacked as the columns of a `b × m` matrix and divided by their
row sums.  With no modalities, `embds[self.modalities[0]]` raises. -/
def compute_weights_from_norm {τ : Type} (E : Env τ) (mods : List ℕ)
    (embds : ℕ → τ) : Except String τ :=
  match mods with
  | [] => Except.error "IndexError: self.modalities is empty"
  | _ :: _ =>
      let norm_embd := E.stackCols (mods.map fun k => E.norm2 (embds k))
      let sum_norm := E.sumDim1 norm_embd
      Except.ok (E.divT norm_embd sum_norm)

/-- Dataflow embedding of `MMTwins.forward` (lines 260-519).  Python
exceptions (`raise NotImplementedError`, attribute/key errors on code paths
whose modules are never initialized) are `Except.error`.
`compute_weights_from_emb` reads `self.moe_vid_dropout` / `self.moe_fc_vid` /
`self.moe_fc_txt`, none of which is created by `__init__`, so the `'emb'`
weighting modes fail with `AttributeError` at run time. -/
def MMTwins_forward {τ : Type} (cfg : Config) (E : Env τ) (inp : Inputs τ)
    (out : OutMode) : Except String (Output τ) :=
  -- lines 276-278
  let ind : ℕ → τ := fun k => E.maxDim1 (inp.features_ind k)
  -- text side, lines 295-327 (enforced to be a Bert variant by __init__)
  if cfg.txtAggBert = false then Except.error "NameError: text encoder is not Bert"
  else
    let txt_last := E.txt_bert (E.prep_text inp.token_ids)
    let text := E.selTok txt_last 0
    let text_avg := E.meanRest txt_last
    -- lines 329-341
    let mnp_experts : ℕ → τ := fun k => E.video_dim_reduce k (inp.features_avgpool k)
    let maxp_experts : ℕ → τ := fun k => E.video_dim_reduce k (inp.features_maxpool k)
    -- lines 343-346
    let experts_feats : ℕ → τ := fun k =>
      if cfg.vid_inp.hasTemp then E.video_dim_reduce k (inp.features k) else inp.features k
    -- lines 377-384
    let experts_feats_t : ℕ → τ := fun k =>
      match cfg.pos_enc with
      | .tint => E.clampPos (inp.features_t k) (cfg.max_position_embeddings - 1)
      | _ => inp.features_t k
    match cfg.vid_cont with
    | .cnone => Except.error "NameError: vid_avg is only defined by the Bert video encoder"
    | .bert =>
        let T := inp.temporalTokens
        let input_ids := E.stackIds (vidInputIds cfg.vid_inp cfg.modalities T)
        let token_type_ids :=
          E.stackIds (vidTokenTypeIds cfg.vid_inp cfg.modalities cfg.expertIdx T)
        let position_ids : Option τ :=
          match cfg.pos_enc with
          | .pnone => none
          | _ => some (E.stackT
              (vidPosList E cfg.pos_enc cfg.vid_inp cfg.modalities T experts_feats_t))
        let features := E.stackT (vidFeaturesList E cfg.vid_inp cfg.out_tok
          cfg.modalities T maxp_experts mnp_experts experts_feats)
        let attention_mask := E.stackT (vidAttnList E cfg.vid_inp cfg.modalities T
          ind inp.features_ind)
        -- lines 442-451
        let vid_last := E.vid_bert input_ids attention_mask token_type_ids
          position_ids features
        let vid_embd := E.selTok vid_last 0
        let vid_avg := E.meanRest vid_last
        -- lines 453-454
        if cfg.vid_inp.hasAgg = false ∧ cfg.modalities ≠ [] then
          Except.error "KeyError: modality_to_tok_map"
        else
          let tokMap := modalityTokMap cfg.vid_inp T cfg.modalities 0
          let experts : ℕ → τ := fun k => E.selTok vid_last ((tokMap.lookup k).getD 0)
          -- lines 456-464
          Except.bind
            (match cfg.vid_wgh with
             | .nrm => compute_weights_from_norm E cfg.modalities experts
             | .emb => Except.error "AttributeError: no attribute moe_vid_dropout"
             | .wnone => Except.ok E.onesBM
             | .unsupported =>
                 Except.error "NotImplementedError: video weighting mode not supported")
            fun vid_weights0 =>
              -- lines 466-474
              let available := E.stackCols (cfg.modalities.map fun k => ind k)
              let vid_weights1 := if cfg.keep_missing_modalities then vid_weights0
                else E.mulT vid_weights0 available
              let vid_weights := E.l1normalize vid_weights1
              -- lines 476-485
              Except.bind
                (match cfg.txt_wgh with
                 | .emb => Except.error "AttributeError: no attribute moe_txt_dropout"
                 | .wnone => Except.ok E.onesBCM
                 | .unsupported =>
                     Except.error "NotImplementedError: txt weighting mode not supported")
                fun text_weights0 =>
                  let text_weights := E.l1normalize text_weights0
                  -- lines 487-493
                  let vid_reps := E.vid_avg2rep vid_avg
                  let txt_reps := E.txt_avg2rep text_avg
                  let vid_embd_CL := E.bn (E.vid_projector vid_reps)
                  let txt_embd_CL := E.bn (E.vid_projector txt_reps)
                  -- lines 495-519
                  match out with
                  | .conf => Except.ok (Output.conf cfg.modalities
                      (E.sharded vid_reps txt_reps cfg.modalities))
                  | .corr => Except.ok (Output.corr cfg.modalities
                      (E.cpt_corr vid_embd_CL txt_embd_CL cfg.modalities))
                  | .embs => Except.ok (Output.embs vid_reps txt_reps)

/-! ### Claims about `MMTwins.forward` -/

theorem except_bind_ok {ε α β : Type} {e : Except ε α} {f : α → Except ε β} {r : β}
    (h : Except.bind e f = Except.ok r) :
    ∃ x, e = Except.ok x ∧ f x = Except.ok r := by
  cases e with
  | error err => simp [Except.bind] at h
  | ok x => exact ⟨x, rfl, by simpa [Except.bind] using h⟩

theorem length_token_rows (mods : List ℕ) (T : ℕ → ℕ) :
    (mods.flatMap fun k => 2 :: List.replicate (T k) 6).length
      = (mods.map fun k => 1 + T k).sum := by
  induction mods with
  | nil => rfl
  | cons k rest ih =>
      simp only [List.flatMap_cons, List.length_append, List.length_cons,
        List.length_replicate, List.map_cons, List.sum_cons, ih]
      omega

/-- **C10.** When `vid_cont='bert'` and `vid_inp` is `'both'` or `'all'`, the
assembled video token sequence starts with a single `[CLS]` token (input id
`0`) and then contains, per modality in order, one aggregated token (input id
`2`) followed by that modality's `T_mod` temporal tokens (input id `6`); its
length is exactly `1 + ∑_mod (1 + T_mod)`.  (`vidInputIds` is the id sequence
`MMTwins_forward` stacks and feeds to `vid_bert` in the `'bert'` branch.) -/
theorem vid_token_assembly (vinp : VidInp) (mods : List ℕ) (T : ℕ → ℕ)
    (h : vinp = VidInp.both ∨ vinp = VidInp.all) :
    vidInputIds vinp mods T = 0 :: mods.flatMap (fun k => 2 :: List.replicate (T k) 6)
    ∧ (vidInputIds vinp mods T).length = 1 + (mods.map (fun k => 1 + T k)).sum := by
  have hAgg : vinp.hasAgg = true := by rcases h with h | h <;> simp [h, VidInp.hasAgg]
  have hTemp : vinp.hasTemp = true := by rcases h with h | h <;> simp [h, VidInp.hasTemp]
  have he : vidInputIds vinp mods T
      = 0 :: mods.flatMap (fun k => 2 :: List.replicate (T k) 6) := by
    simp only [vidInputIds, hAgg, hTemp, if_pos]
    rfl
  refine ⟨he, ?_⟩
  rw [he, List.length_cons, length_token_rows]
  omega

/-- Witness for C10 at `vid_inp='both'`, two modalities with `0` resp. `1`
temporal tokens. -/
theorem vid_token_assembly_witness :
    (VidInp.both = VidInp.both ∨ VidInp.both = VidInp.all)
      ∧ (vidInputIds VidInp.both [5, 7] (fun k => k - 5)
            = 0 :: [5, 7].flatMap (fun k => 2 :: List.replicate (k - 5) 6)
        ∧ (vidInputIds VidInp.both [5, 7] (fun k => k - 5)).length
            = 1 + ([5, 7].map (fun k => 1 + (k - 5))).sum) :=
  ⟨Or.inl rfl, vid_token_assembly VidInp.both [5, 7] (fun k => k - 5) (Or.inl rfl)⟩

set_option maxHeartbeats 2000000 in
/-- **C9.** In `MMTwins.forward` both contrastive embeddings are produced by
the same projection head: the separately constructed `txt_projector` never
influences any returned value (runs differing only in it agree on every
input), and any successful `out='corr'` result is built from
`bn(vid_projector(·))` applied to both the video and the text
representations. -/
theorem txt_projector_dead {τ : Type} (cfg : Config) (E : Env τ) (tp1 tp2 : τ → τ)
    (inp : Inputs τ) (out : OutMode) :
    MMTwins_forward cfg { E with txt_projector := tp1 } inp out
        = MMTwins_forward cfg { E with txt_projector := tp2 } inp out
      ∧ (∀ r, MMTwins_forward cfg E inp OutMode.corr = Except.ok r →
          ∃ v t, r = Output.corr cfg.modalities
            (E.cpt_corr (E.bn (E.vid_projector v)) (E.bn (E.vid_projector t))
              cfg.modalities)) := by
  constructor
  · cases E
    rfl
  · intro r hr
    unfold MMTwins_forward at hr
    dsimp only [] at hr
    repeat' split at hr
    all_goals first
      | contradiction
      | (refine absurd hr ?_
         simp [Except.bind]
         done)
      | (obtain ⟨w1, hw1, hr⟩ := except_bind_ok hr
         try dsimp only [] at hr
         obtain ⟨w2, hw2, hr⟩ := except_bind_ok hr
         try dsimp only [] at hr
         simp only [Except.ok.injEq] at hr
         exact ⟨_, _, hr.symm⟩)

/-- Concrete configuration used by the C5/C9 witnesses and the C5
counterexample: one modality, Bert video encoder, `vid_inp='all'`,
`pos_enc='ordr'`, `out_tok='sep'`, `txt_wgh='none'`, `vid_wgh='none'`. -/
def cfgBase : Config :=
  { modalities := [0]
    expertIdx := fun _ => 0
    keep_missing_modalities := true
    txtAggBert := true
    vid_inp := VidInp.all
    vid_cont := VidCont.bert
    pos_enc := PosEnc.ordr
    out_tok := OutTok.sep
    vid_wgh := VidWgh.wnone
    txt_wgh := TxtWgh.wnone
    max_position_embeddings := 32 }

/-- The same configuration with norm-based video re-weighting. -/
def cfgNrm : Config := { cfgBase with vid_wgh := VidWgh.nrm }

/-- Trivial environment over the unit tensor type. -/
def unitEnv : Env Unit :=
  { video_dim_reduce := fun _ _ => ()
    vid_bert := fun _ _ _ _ _ => ()
    txt_bert := fun _ => ()
    txt_avg2rep := fun _ => ()
    vid_avg2rep := fun _ => ()
    txt_projector := fun _ => ()
    vid_projector := fun _ => ()
    bn := fun _ => ()
    prep_text := fun _ => ()
    selTok := fun _ _ => ()
    meanRest := fun _ => ()
    maxDim1 := fun _ => ()
    clampPos := fun _ _ => ()
    fullConst := fun _ => ()
    zerosFeat := ()
    colTok := fun _ _ => ()
    stackIds := fun _ => ()
    stackT := fun _ => ()
    norm2 := fun _ => ()
    stackCols := fun _ => ()
    sumDim1 := fun _ => ()
    divT := fun _ _ => ()
    mulT := fun _ _ => ()
    onesBM := ()
    onesBCM := ()
    l1normalize := fun _ => ()
    sharded := fun _ _ _ => ()
    cpt_corr := fun _ _ _ => () }

/-- Trivial inputs over the unit tensor type. -/
def unitInputs : Inputs Unit :=
  { token_ids := ()
    features := fun _ => ()
    features_t := fun _ => ()
    features_ind := fun _ => ()
    features_avgpool := fun _ => ()
    features_maxpool := fun _ => ()
    query_masks := ()
    temporalTokens := fun _ => 1 }

/-- Witness for C9: on the unit environment with `out='corr'`, the run
succeeds and the returned correlation matrix has the
`cpt_corr (bn (vid_projector v)) (bn (vid_projector t))` shape. -/
theorem txt_projector_dead_witness :
    MMTwins_forward cfgBase unitEnv unitInputs OutMode.corr
        = Except.ok (Output.corr [0] ())
      ∧ (∃ v t, Output.corr [0] () = Output.corr cfgBase.modalities
          (unitEnv.cpt_corr (unitEnv.bn (unitEnv.vid_projector v))
            (unitEnv.bn (unitEnv.vid_projector t)) cfgBase.modalities)) :=
  ⟨rfl,
    (txt_projector_dead cfgBase unitEnv id id unitInputs OutMode.corr).2
      (Output.corr [0] ()) rfl⟩

/-- **C5 (amended).** The modality re-weighting step of `MMTwins.forward`
does not influence the returned values: `vid_weights` and `text_weights` are
computed (lines 456-485) and never read again, so with at least one modality
the outputs under `vid_wgh='nrm'` and `vid_wgh='none'` (with `txt_wgh='none'`)
are identical for every environment, input and output mode. -/
theorem modality_weights_dead {τ : Type} (cfg : Config) (E : Env τ)
    (inp : Inputs τ) (out : OutMode) (hmods : cfg.modalities ≠ []) :
    MMTwins_forward { cfg with vid_wgh := VidWgh.nrm, txt_wgh := TxtWgh.wnone } E inp out
      = MMTwins_forward { cfg with vid_wgh := VidWgh.wnone, txt_wgh := TxtWgh.wnone }
          E inp out := by
  obtain ⟨mods, eidx, km, tb, vi, vc, pe, ot, vw, tw, mp⟩ := cfg
  cases hm : mods with
  | nil => exact absurd hm hmods
  | cons k rest =>
      subst hm
      rfl

/-- Witness for C5 on the unit environment: `cfgBase.modalities = [0] ≠ []`
and the two runs agree. -/
theorem modality_weights_dead_witness :
    cfgBase.modalities ≠ []
      ∧ MMTwins_forward { cfgBase with vid_wgh := VidWgh.nrm, txt_wgh := TxtWgh.wnone }
          unitEnv unitInputs OutMode.conf
        = MMTwins_forward { cfgBase with vid_wgh := VidWgh.wnone, txt_wgh := TxtWgh.wnone }
            unitEnv unitInputs OutMode.conf :=
  ⟨by simp [cfgBase],
    modality_weights_dead cfgBase unitEnv unitInputs OutMode.conf (by simp [cfgBase])⟩

/-- Counterexample to **C5** as stated (the negation of the claimed
existential): there is no environment, input and output mode on which the
run with `vid_wgh='nrm'` differs from the run with `vid_wgh='none'`
(`txt_wgh='none'` in both) for the representative configuration — the
computed modality weights never reach any returned value. -/
theorem modality_weights_influence_refuted :
    ¬ ∃ (τ : Type) (E : Env τ) (inp : Inputs τ) (out : OutMode),
        MMTwins_forward cfgNrm E inp out ≠ MMTwins_forward cfgBase E inp out := by
  rintro ⟨τ, E, inp, out, hne⟩
  exact hne (modality_weights_dead cfgBase E inp out (by simp [cfgBase]))

end CleanMMT
